import Mathlib

/-!
Verification of the gamecord interactive mini-game library.

Each section embeds part of the TypeScript source as executable Lean
definitions and proves the claimed properties about them.  Boards are flat
arrays of small numbers exactly as in the source.  A JavaScript array read
with an index outside the array bounds yields `undefined`; we model such a
read as an `Option` value (`none` for `undefined`), so that the source's
`=== number` comparisons against out-of-bounds reads are faithfully `false`.
-/

namespace Gamecord

/-- The five lifecycle event kinds emitted by a game session
(`src/core/Game.ts`, `declare interface Game`): `error`, `fatalError`,
`versusReject` (whose runtime payload is the boolean `isTime` computed in
`VersusGame.requestVersus`), `gameOver` (tagged here with its outcome
string), and `end`. -/
inductive Ev where
  | errorEv : Ev
  | fatalErrorEv : Ev
  | versusRejectEv (isTime : Bool) : Ev
  | gameOverEv (outcome : String) : Ev
  | endEv : Ev
deriving DecidableEq

/-! ## Connect 4 board and win check (`src/games/Connect4.ts`) -/

/-- Read `gameboard[i]` on the Connect 4 `6*7` flat board: a JS array read
returns `undefined` outside `[0, 42)`, modelled as `none`. -/
def readC4 (b : List ℕ) (i : ℤ) : Option ℕ :=
  if 0 ≤ i ∧ i < 42 then some (b.getD i.toNat 0) else none

/-- The inclusive integer range `[a, b]` traversed by a JS
`for (let i = a; i <= b; i++)` loop. -/
def intRange (a b : ℤ) : List ℤ :=
  (List.range (b + 1 - a).toNat).map (fun k : ℕ => a + (k : ℤ))

/-- `Connect4.isWinAt(x, y)` (`src/games/Connect4.ts` lines 350-411), with
the current player number (`this.getPlayerNumber()`) passed explicitly.
The four `any` blocks are the source's horizontal, vertical, ascending and
descending loops, in order, including their exact bounds guards. -/
def isWinAt (b : List ℕ) (number : ℕ) (x y : ℤ) : Bool :=
  ((intRange (max 0 (x - 3)) x).any (fun i =>
    decide (i + 3 < 7) &&
      (readC4 b (i + y * 7) == some number &&
       readC4 b (i + y * 7 + 1) == some number &&
       readC4 b (i + y * 7 + 2) == some number &&
       readC4 b (i + y * 7 + 3) == some number))) ||
  ((intRange (max 0 (y - 3)) y).any (fun i =>
    decide (i + 3 < 6) &&
      (readC4 b (x + i * 7) == some number &&
       readC4 b (x + i * 7 + 7) == some number &&
       readC4 b (x + i * 7 + 2 * 7) == some number &&
       readC4 b (x + i * 7 + 3 * 7) == some number))) ||
  ((intRange (-3) 0).any (fun i =>
    decide (x + i + 3 < 7 ∧ y + i + 3 < 6) &&
      (readC4 b ((x + i) + (y + i) * 7) == some number &&
       readC4 b ((x + i) + (y + i) * 7 + 7 + 1) == some number &&
       readC4 b ((x + i) + (y + i) * 7 + 2 * 7 + 2) == some number &&
       readC4 b ((x + i) + (y + i) * 7 + 3 * 7 + 3) == some number))) ||
  ((intRange (-3) 0).any (fun i =>
    decide (x + i + 3 < 7 ∧ y - i - 3 ≥ 0 ∧ x + i ≥ 0) &&
      (readC4 b ((x + i) + (y - i) * 7) == some number &&
       readC4 b ((x + i) + (y - i) * 7 - 7 + 1) == some number &&
       readC4 b ((x + i) + (y - i) * 7 - 2 * 7 + 2) == some number &&
       readC4 b ((x + i) + (y - i) * 7 - 3 * 7 + 3) == some number)))

/-- The empty Connect 4 board built by the constructor. -/
def c4Empty : List ℕ := List.replicate 42 0

/-- Board holding a horizontal run of exactly three player-1 tokens at
cells `(1,5)`, `(2,5)`, `(3,5)` (flat indices 36, 37, 38). -/
def run3Board : List ℕ := ((c4Empty.set 36 1).set 37 1).set 38 1

/-- `run3Board` with a fourth player-1 token at `(4,5)` (flat index 39),
completing the horizontal run of four. -/
def run4Board : List ℕ := run3Board.set 39 1

/-! ## Minesweeper board setup (`src/games/Minesweeper.ts`) -/

/-- A Minesweeper board cell.  The source stores `false` for an unrevealed
empty block, `true` for a mine (`plantMines` writes `true`), and a number
for a revealed block with that many mines around it. -/
inductive Cell where
  | hidden : Cell
  | mine : Cell
  | revealed (n : ℕ) : Cell
deriving DecidableEq

/-- The all-`false` (all hidden) `5*5` board built by the constructor. -/
def msEmptyBoard : List Cell := List.replicate 25 Cell.hidden

/-- `Minesweeper.getMinesAround(x, y)` (`src/games/Minesweeper.ts` lines
220-233): counts the mines among the up-to-eight neighbours of `(x, y)`,
skipping out-of-board blocks and the centre. -/
def getMinesAround (b : List Cell) (x y : ℤ) : ℕ :=
  ((intRange (-1) 1).map (fun row =>
    ((intRange (-1) 1).map (fun col =>
      if x + col < 0 ∨ x + col ≥ 5 ∨ y + row < 0 ∨ y + row ≥ 5 then 0
      else if row = 0 ∧ col = 0 then 0
      else if b.getD ((y + row) * 5 + (x + col)).toNat Cell.hidden = Cell.mine then 1
      else 0)).sum)).sum

/-- `Minesweeper.plantMines` (`src/games/Minesweeper.ts` lines 206-218).
The loop `for (let i = 0; i <= this.options.mines; i++)` performs
`mines + 1` successful plants (`need` counts the plants still due); a draw
that hits an existing mine runs `i -= 1`, i.e. retries with the next draw.
Randomness is an injected stream `rng` of `(x, y)` draws, each in
`[0,5) × [0,5)`; `none` models a run that exhausts the stream (in JS the
loop would simply keep drawing). -/
def plantMines (need : ℕ) (rng : List (ℕ × ℕ)) (b : List Cell) : Option (List Cell) :=
  match need, rng with
  | 0, _ => some b
  | _ + 1, [] => none
  | n + 1, (x, y) :: rest =>
    if b.getD (y * 5 + x) Cell.hidden = Cell.mine then plantMines (n + 1) rest b
    else plantMines n rest (b.set (y * 5 + x) Cell.mine)

/-- The `emptyBlocks` list of `Minesweeper.showFirstBlock` (lines 236-241):
the blocks whose cell is `=== true`, i.e. exactly the mine cells, collected
row by row. -/
def mineBlocks (b : List Cell) : List (ℕ × ℕ) :=
  (List.range 5).flatMap (fun y =>
    (List.range 5).filterMap (fun x =>
      if b.getD (y * 5 + x) Cell.hidden = Cell.mine then some (x, y) else none))

/-- The candidate list `blocks` of `showFirstBlock` (lines 243-244): the
mine blocks with no mines around them, or all mine blocks when there are
none such. -/
def firstBlockChoices (b : List Cell) : List (ℕ × ℕ) :=
  if ((mineBlocks b).filter (fun p => getMinesAround b p.1 p.2 == 0)).isEmpty
  then mineBlocks b
  else (mineBlocks b).filter (fun p => getMinesAround b p.1 p.2 == 0)

/-- `Minesweeper.showFirstBlock` (lines 235-248): converts the `k`-th
candidate block (the source draws `k` uniformly below the candidate count)
into a revealed number cell.  An out-of-range `k` is impossible in the
source (the draw is below the length); we return the board unchanged. -/
def showFirstBlock (b : List Cell) (k : ℕ) : List Cell :=
  match (firstBlockChoices b)[k]? with
  | some p => b.set (p.2 * 5 + p.1) (Cell.revealed (getMinesAround b p.1 p.2))
  | none => b

/-- Number of mine cells on the board. -/
def mineCount (b : List Cell) : ℕ := b.countP (fun c => c = Cell.mine)

/-- Number of revealed (number) cells on the board. -/
def revealedCount (b : List Cell) : ℕ :=
  b.countP (fun c => match c with | Cell.revealed _ => true | _ => false)

/-- The board produced by `plantMines 2 [(0,0),(1,1)] msEmptyBoard`:
mines at flat indices 0 and 6. -/
def msWitnessBoard : List Cell := (msEmptyBoard.set 0 Cell.mine).set 6 Cell.mine

/-! ## Rock Paper Scissors result (`src/games/RockPaperScissors.ts`) -/

/-- JS truthiness of a `string | null` choice field: `null` and the empty
string are falsy.  The source tests choices with `!this.playerChoice`. -/
def truthy : Option String → Bool
  | none => false
  | some s => !(s == "")

/-- `RockPaperScissors.getResult` (`src/games/RockPaperScissors.ts` lines
241-245), over the two recorded choice fields. -/
def getResult (pc oc : Option String) : String :=
  if !truthy pc && !truthy oc then "timeout"
  else if pc == oc then "tie"
  else "win"

/-- `RockPaperScissors.hasPlayer1Won` (lines 247-257); `r`, `p`, `s` are
the configured rock/paper/scissors emoji strings. -/
def hasPlayer1Won (pc oc : Option String) (r p s : String) : Bool :=
  (pc == some s && oc == some p) ||
  (pc == some r && oc == some s) ||
  (pc == some p && oc == some r)

/-- The `winner` result field computed in `RockPaperScissors.gameOver`
(lines 282-291): `some true` is the initiating player, `some false` the
opponent, `none` when the outcome is not `"win"`. -/
def rpsWinner (pc oc : Option String) (r p s : String) : Option Bool :=
  if getResult pc oc = "win" then some (hasPlayer1Won pc oc r p s) else none

/-! ## Session lifecycle traces

The following functions transcribe, terminal path by terminal path, the
order in which the sessions emit their lifecycle events.  Parameters are
the externally determined facts of a run: the collector's end `reason`
string, whether the transport calls succeed (`editOk`-style flags), and a
number of non-fatal `error` events emitted by handler-local catches while
input was being collected (`preErrors`: every catch inside a `collect`
handler emits only `error`).  The second component of a returned pair is
whether the session proceeded into its turn loop. -/

/-- `VersusGame.requestVersus` (`src/core/VersusGame.ts` lines 96-157),
collector end handler (lines 133-156): on reason `"accept"` it resolves
with the message and emits nothing; on any other reason it emits
`versusReject` with payload `isTime = (reason === "time")`, then `end`,
then attempts the outcome-view edit (an `error` on failure). -/
def requestVersusTrace (preErrors : ℕ) (reason : String) (editOk : Bool) :
    List Ev × Bool :=
  if reason = "accept" then (List.replicate preErrors Ev.errorEv, true)
  else
    (List.replicate preErrors Ev.errorEv ++
        Ev.versusRejectEv (reason == "time") :: Ev.endEv ::
          (if editOk then [] else [Ev.errorEv]),
      false)

/-- The `gameOver` outcome selected by the Connect 4 / TicTacToe collector
end handler (`src/games/Connect4.ts` lines 246-257): `$win`, `$tie` and
`idle` reasons finalize; any other reason emits no `gameOver`. -/
def gameOverOutcome (reason : String) : Option String :=
  if reason = "$win" then some "win"
  else if reason = "$tie" then some "tie"
  else if reason = "idle" then some "timeout"
  else none

/-- A full versus game session (`Connect4.start`, lines 145-174 and
246-305; `TicTacToe.start` is identical in shape): negotiation, then
either a failed transition render (`fatalError` then `end`, no collector)
or the turn loop whose collector end handler emits `end` and then
finalizes with `gameOver` on the game-over reasons. -/
def versusSessionTrace (negPre : ℕ) (negReason : String) (negEditOk : Bool)
    (renderOk : Bool) (collPre : ℕ) (collReason : String) (endEditOk : Bool) :
    List Ev × Bool :=
  if (requestVersusTrace negPre negReason negEditOk).2 = false then
    ((requestVersusTrace negPre negReason negEditOk).1, false)
  else if renderOk = false then
    ((requestVersusTrace negPre negReason negEditOk).1 ++
      [Ev.fatalErrorEv, Ev.endEv], false)
  else
    ((requestVersusTrace negPre negReason negEditOk).1 ++
        List.replicate collPre Ev.errorEv ++ Ev.endEv ::
          (match gameOverOutcome collReason with
           | some o => Ev.gameOverEv o :: (if endEditOk then [] else [Ev.errorEv])
           | none => []),
      true)

/-- A full Trivia session (`src/games/Trivia.ts` lines 161-254).  When the
upstream question fetch fails, `getTriviaQuestion` emits `error` (line
336), `start` sends the fallback notice (an extra `error` if that send
fails) and returns without opening a collector and without emitting `end`
(when the fetch parses but carries no question, lines 340-342, the same
path is taken minus the first `error`; it also emits no `end`).
Otherwise the collector ends by the player answering (`collector.stop()`,
reason `"user"`: `end`, then a failed `deferUpdate` would add an `error`,
then `gameOver` win/lose), by idling (`end` then `gameOver` timeout), or
by an external reason (only `end`). -/
def triviaSessionTrace (fetchOk sendOk : Bool) (collPre : ℕ)
    (collReason : String) (correct deferOk endEditOk : Bool) :
    List Ev × Bool :=
  if fetchOk = false then
    (Ev.errorEv :: (if sendOk then [] else [Ev.errorEv]), false)
  else
    (List.replicate collPre Ev.errorEv ++
        (if collReason = "user" then
          Ev.endEv :: ((if deferOk then [] else [Ev.errorEv]) ++
            Ev.gameOverEv (if correct then "win" else "lose") ::
              (if endEditOk then [] else [Ev.errorEv]))
         else if collReason = "idle" then
          Ev.endEv :: Ev.gameOverEv "timeout" ::
            (if endEditOk then [] else [Ev.errorEv])
         else [Ev.endEv]),
      true)

/-- A full 2048 session's terminal events (`src/games/2048.ts` lines
193-227): the collector end handler emits `end`, then finalizes with
`gameOver` (`over` for the `$over` stop, `timeout` for `idle`; no
`gameOver` for an external reason). -/
def game2048SessionTrace (collPre : ℕ) (collReason : String)
    (endEditOk : Bool) : List Ev :=
  List.replicate collPre Ev.errorEv ++ Ev.endEv ::
    (if collReason = "$over" then
      Ev.gameOverEv "over" :: (if endEditOk then [] else [Ev.errorEv])
     else if collReason = "idle" then
      Ev.gameOverEv "timeout" :: (if endEditOk then [] else [Ev.errorEv])
     else [])

/-- `end` occurs exactly once in the trace, after every `versusReject` and
before every `gameOver`. -/
def endOnceOrdered (tr : List Ev) : Prop :=
  ∃ pre post, tr = pre ++ Ev.endEv :: post ∧
    Ev.endEv ∉ pre ∧ Ev.endEv ∉ post ∧
    (∀ b, Ev.versusRejectEv b ∉ post) ∧
    (∀ o, Ev.gameOverEv o ∉ pre)

/-! ## 2048 board and shift pass (`src/games/2048.ts`)

The board is the flat 16-element exponent array `gameboard`.  The handler
only ever calls the shift code with one of the four direction strings
(`up`, `down`, `left`, `right` from the button custom ids), so directions
are embedded as an inductive type. -/

inductive Dir where
  | up : Dir
  | down : Dir
  | left : Dir
  | right : Dir
deriving DecidableEq

/-- `moveInDirection` (`src/utils/games.ts` lines 20-26). -/
def moveInDirection (p : ℤ × ℤ) : Dir → ℤ × ℤ
  | Dir.up => (p.1, p.2 - 1)
  | Dir.down => (p.1, p.2 + 1)
  | Dir.left => (p.1 - 1, p.2)
  | Dir.right => (p.1 + 1, p.2)

/-- `getOppositeDirection` (`src/utils/games.ts` lines 28-33). -/
def getOppositeDirection : Dir → Dir
  | Dir.up => Dir.down
  | Dir.down => Dir.up
  | Dir.left => Dir.right
  | Dir.right => Dir.left

/-- The flat-index displacement of one move in a direction. -/
def dirDelta : Dir → ℤ
  | Dir.up => -4
  | Dir.down => 4
  | Dir.left => -1
  | Dir.right => 1

/-- Flat index `pos.y * this.length + pos.x` on the 4x4 board. -/
def idx16 (p : ℤ × ℤ) : ℤ := p.2 * 4 + p.1

/-- A JS read `gameboard[i]`: `undefined` (modelled `none`) outside `[0,16)`. -/
def read16 (b : List ℕ) (i : ℤ) : Option ℕ :=
  if 0 ≤ i ∧ i < 16 then some (b.getD i.toNat 0) else none

/-- A JS write `gameboard[i] = v`; the shift code only ever writes at
indices it has read as in-board values, so out-of-range writes are
modelled as no-ops. -/
def write16 (b : List ℕ) (i : ℤ) (v : ℕ) : List ℕ :=
  if 0 ≤ i ∧ i < 16 then b.set i.toNat v else b

/-- `Game2048.isInsideBlock` (`src/games/2048.ts` lines 297-299). -/
def insideBlock (p : ℤ × ℤ) : Bool :=
  decide (0 ≤ p.1 ∧ 0 ≤ p.2 ∧ p.1 < 4 ∧ p.2 < 4)

/-- The state threaded through a shift pass: the board, the score, and the
per-move `mergedPos` list. -/
structure SState where
  board : List ℕ
  score : ℕ
  merged : List (ℤ × ℤ)
deriving DecidableEq

/-- A ghost record of one merge performed by `shift`: the moving tile's
origin, the cell merged into, and the common exponent value the two tiles
held before the merge. -/
structure MergeEvent where
  src : ℤ × ℤ
  dst : ℤ × ℤ
  oldVal : ℕ
deriving DecidableEq

/-- The `while (!set)` loop of `Game2048.shift` (`src/games/2048.ts` lines
309-335).  Each iteration advances `moveTo` one step; it either settles
(first branch: border, blocking tile, or already-merged cell — writing the
tile at the last free cell if it moved), merges (second branch: equal
tile, not yet merged this pass — incrementing the target, scoring the
square of the new value, zeroing the origin and recording the cell in
`mergedPos`), or continues.  The loop always terminates from an in-board
start (the position strictly advances off the board); the fuel bound 8 is
never reached there, and exhaustion returns the state unchanged.  The
returned `Bool` is the source's `moved` flag; the `MergeEvent` list (ghost
data) records the merge if one happened. -/
def shiftLoop (fuel : ℕ) (pos : ℤ × ℤ) (movingTile : ℕ) (dir : Dir)
    (moveTo : ℤ × ℤ) (st : SState) : SState × Bool × List MergeEvent :=
  match fuel with
  | 0 => (st, false, [])
  | fuel + 1 =>
    let moveTo' := moveInDirection moveTo dir
    let moveToTile := read16 st.board (idx16 moveTo')
    if !insideBlock moveTo' ||
        (moveToTile != some 0 && moveToTile != some movingTile) ||
        st.merged.contains moveTo' then
      let moveBack := moveInDirection moveTo' (getOppositeDirection dir)
      if moveBack = pos then (st, false, [])
      else
        ({ st with
            board := write16 (write16 st.board (idx16 pos) 0)
              (idx16 moveBack) movingTile },
          true, [])
    else if moveToTile == some movingTile then
      ({ board := write16 (write16 st.board (idx16 moveTo') (movingTile + 1))
            (idx16 pos) 0,
         score := st.score + (movingTile + 1) ^ 2,
         merged := st.merged ++ [moveTo'] },
        true, [⟨pos, moveTo', movingTile⟩])
    else shiftLoop fuel pos movingTile dir moveTo' st

/-- `Game2048.shift` (`src/games/2048.ts` lines 304-338): a zero (or
out-of-board) origin moves nothing; otherwise the loop runs. -/
def shift (p : ℤ × ℤ) (dir : Dir) (st : SState) :
    SState × Bool × List MergeEvent :=
  match read16 st.board (idx16 p) with
  | some 0 => (st, false, [])
  | none => (st, false, [])
  | some (t + 1) => shiftLoop 8 p (t + 1) dir p st

/-- The cell visit order of `shiftVertical` / `shiftHorizontal`
(`src/games/2048.ts` lines 266-295). -/
def passOrder : Dir → List (ℤ × ℤ)
  | Dir.up => (List.range 4).flatMap (fun x =>
      (List.range 3).map (fun k => ((x : ℤ), (k : ℤ) + 1)))
  | Dir.down => (List.range 4).flatMap (fun x =>
      (List.range 3).map (fun k => ((x : ℤ), 2 - (k : ℤ))))
  | Dir.left => (List.range 4).flatMap (fun y =>
      (List.range 3).map (fun k => ((k : ℤ) + 1, (y : ℤ))))
  | Dir.right => (List.range 4).flatMap (fun y =>
      (List.range 3).map (fun k => (2 - (k : ℤ), (y : ℤ))))

/-- The fold `moved = this.shift(...) || moved` over the visit order,
accumulating the ghost merge events. -/
def passFold (dir : Dir) : List (ℤ × ℤ) → SState → Bool → List MergeEvent →
    SState × Bool × List MergeEvent
  | [], st, moved, evs => (st, moved, evs)
  | p :: rest, st, moved, evs =>
    let r := shift p dir st
    passFold dir rest r.1 (r.2.1 || moved) (evs ++ r.2.2)

/-- One directional pass as the handler performs it: `mergedPos` has just
been reset to `[]` (line 158), then `shiftVertical`/`shiftHorizontal`
runs. -/
def directionalPass (dir : Dir) (board : List ℕ) (score : ℕ) :
    SState × Bool × List MergeEvent :=
  passFold dir (passOrder dir) ⟨board, score, []⟩ false []

/-- `Game2048.placeRandomTile` (`src/games/2048.ts` lines 253-261): draw
positions from the injected stream until an empty cell is found, then
write the drawn value (`1` or `2`).  An exhausted stream (in JS the
`do/while` would keep drawing) leaves the board unchanged. -/
def placeRandomTile (b : List ℕ) (rngPos : List (ℕ × ℕ)) (v : ℕ) :
    List ℕ × List (ℕ × ℕ) :=
  match rngPos with
  | [] => (b, [])
  | (x, y) :: rest =>
    if b.getD (y * 4 + x) 0 ≠ 0 then placeRandomTile b rest v
    else (b.set (y * 4 + x) v, rest)

/-- `Game2048.isGameOver` (`src/games/2048.ts` lines 229-251). -/
def isGameOver (b : List ℕ) : Bool :=
  let cells := (List.range 4).flatMap (fun y =>
    (List.range 4).map (fun x => ((x : ℤ), (y : ℤ))))
  let boardFull := cells.all (fun p => !(read16 b (idx16 p) == some 0))
  let numMoves := (cells.map (fun p =>
    ([Dir.down, Dir.left, Dir.right, Dir.up].map (fun d =>
      let q := moveInDirection p d
      if insideBlock q &&
          (read16 b (idx16 q) == some 0 ||
            read16 b (idx16 q) == read16 b (idx16 p)) then 1 else 0)).sum)).sum
  boardFull && numMoves == 0

/-! ### Two racing 2048 input events (`Game2048.handleButtons`, lines
137-200)

The handler for one collected event runs in three atomic segments
separated by its `await` suspension points: before `deferUpdate` it only
resets the shared `this.mergedPos` field; after `deferUpdate` resolves it
performs the whole shift pass, the random tile placement and the game-over
check synchronously (stopping the collector runs the `end` handler's
synchronous prefix: `emit("end")` and the `gameOver` emit); after the
board render (`buildEmbed` + `editReply`) it finishes, emitting `error` if
the edit failed.  There is no lock. -/

/-- A 2048 input event (always from the session's player): the direction
clicked and whether the board-update edit will succeed. -/
structure H2048Event where
  dir : Dir
  editOk : Bool
deriving DecidableEq

/-- Program counter of one handler invocation: dispatched (before its
`deferUpdate` resolves), suspended at the board render, or finished. -/
inductive HPc where
  | ready : HPc
  | afterDefer : HPc
  | atRender : HPc
  | hdone : HPc
deriving DecidableEq

/-- The shared session state of a running 2048 game: board, score, the
shared `mergedPos` field, the injected random streams, whether the
collector was stopped, the emitted events, and a ghost counter of how
many shift passes mutated the board. -/
structure G2048Config where
  board : List ℕ
  score : ℕ
  merged : List (ℤ × ℤ)
  rngPos : List (ℕ × ℕ)
  rngVal : List ℕ
  stopped : Bool
  trace : List Ev
  mutCount : ℕ
deriving DecidableEq

/-- `collector.stop("$over")`: a second stop on an ended collector is a
no-op; otherwise the collector `end` handler synchronously emits `end`
and begins `gameOver`, emitting the result. -/
def g2048Stop (c : G2048Config) : G2048Config :=
  if c.stopped then c
  else { c with stopped := true,
                trace := c.trace ++ [Ev.endEv, Ev.gameOverEv "over"] }

/-- Segment before `await i.deferUpdate()` (line 158): resets the shared
`mergedPos`. -/
def g2048SegPre (c : G2048Config) : G2048Config := { c with merged := [] }

/-- Segment after `deferUpdate` resolves (lines 168-184): shift pass in
the clicked direction, random tile placement when the pass moved, then
the game-over check (which stops the collector) or suspension at the
board render. -/
def g2048SegMain (e : H2048Event) (c : G2048Config) : G2048Config × HPc :=
  let r := passFold e.dir (passOrder e.dir) ⟨c.board, c.score, c.merged⟩ false []
  let moved := r.2.1
  let c1 := { c with board := r.1.board, score := r.1.score,
                     merged := r.1.merged,
                     mutCount := c.mutCount + (if moved then 1 else 0) }
  let c2 :=
    if moved then
      let pr := placeRandomTile c1.board c1.rngPos (c1.rngVal.headD 1)
      { c1 with board := pr.1, rngPos := pr.2, rngVal := c1.rngVal.tail }
    else c1
  if isGameOver c2.board then (g2048Stop c2, HPc.hdone)
  else (c2, HPc.atRender)

/-- Resumption after the board render (lines 186-190): a failed
`editReply` is caught and published as `error`; nothing else happens. -/
def g2048SegRender (e : H2048Event) (c : G2048Config) : G2048Config :=
  if e.editOk then c else { c with trace := c.trace ++ [Ev.errorEv] }

/-- Advance one handler invocation by one atomic segment. -/
def g2048HandlerStep (e : H2048Event) (c : G2048Config) (pc : HPc) :
    G2048Config × HPc :=
  match pc with
  | HPc.ready => (g2048SegPre c, HPc.afterDefer)
  | HPc.afterDefer => g2048SegMain e c
  | HPc.atRender => (g2048SegRender e c, HPc.hdone)
  | HPc.hdone => (c, HPc.hdone)

/-- Two dispatched handler invocations over the shared session state. -/
structure G2048Race where
  cfg : G2048Config
  pc1 : HPc
  pc2 : HPc
deriving DecidableEq

/-- One scheduler step: advance handler 1 (`true`) or handler 2
(`false`) by one atomic segment. -/
def g2048Step (e1 e2 : H2048Event) (r : G2048Race) (which : Bool) :
    G2048Race :=
  if which then
    let s := g2048HandlerStep e1 r.cfg r.pc1
    { cfg := s.1, pc1 := s.2, pc2 := r.pc2 }
  else
    let s := g2048HandlerStep e2 r.cfg r.pc2
    { cfg := s.1, pc1 := r.pc1, pc2 := s.2 }

/-- Run a schedule (an arbitrary interleaving of the two handlers'
segments). -/
def g2048Run (e1 e2 : H2048Event) (init : G2048Race) (sched : List Bool) :
    G2048Race :=
  sched.foldl (g2048Step e1 e2) init

/-- Concrete race start for the no-lock counterexample: one tile of
exponent 1 at cell `(3,0)`, both events are `left` clicks by the player,
random streams supplying `(3,3)` then `(1,1)` with tile value 1. -/
def g2048CexInit : G2048Race :=
  { cfg := { board := [0, 0, 0, 1, 0, 0, 0, 0, 0, 0, 0, 0, 0, 0, 0, 0],
             score := 0, merged := [], rngPos := [(3, 3), (1, 1)],
             rngVal := [1, 1], stopped := false, trace := [], mutCount := 0 },
    pc1 := HPc.ready, pc2 := HPc.ready }

/-- The `left` click with a succeeding render. -/
def leftClick : H2048Event := { dir := Dir.left, editOk := true }

/-! ## TicTacToe turn handler under racing events (`src/unnamed/part_002`,
the TicTacToe game; `handleButtons` lines 193-261)

The handler runs in two atomic segments: after `deferUpdate` resolves it
checks the `locked` guard, acquires it, validates the turn and the cell,
applies the move, checks win/tie (stopping the collector runs the `end`
handler synchronously: `emit("end")` and the `gameOver` emit) and flips
the turn, suspending at the board render (`buildEmbed` + `editReply`)
with the lock still held; the resumption emits `error` on a failed edit
and the `finally` releases the lock.  Every early exit path inside the
`try` passes through the same `finally`. -/

/-- Program counter of one TicTacToe handler invocation. -/
inductive TPc where
  | waiting : TPc
  | rendering : TPc
  | tdone : TPc
deriving DecidableEq

/-- A TicTacToe input event from one of the two players: which player
clicked, the cell index of the button, and whether the board edit will
succeed. -/
structure TTTEvent where
  byP1 : Bool
  index : ℕ
  editOk : Bool
deriving DecidableEq

/-- The shared TicTacToe session state, with a ghost counter of applied
board mutations. -/
structure TTTConfig where
  board : List ℕ
  isP1Turn : Bool
  locked : Bool
  stopped : Bool
  trace : List Ev
  mutCount : ℕ
deriving DecidableEq

/-- Read `gameboard[i]` on the 9-cell board. -/
def bget9 (b : List ℕ) (i : ℕ) : ℕ := b.getD i 0

/-- `TicTacToe.hasWonGame` (`src/unnamed/part_002` lines 305-336). -/
def hasWonGame (b : List ℕ) (p : ℕ) : Bool :=
  (bget9 b 0 == bget9 b 4 && bget9 b 0 == bget9 b 8 && bget9 b 0 == p) ||
  (bget9 b 6 == bget9 b 4 && bget9 b 6 == bget9 b 2 && bget9 b 6 == p) ||
  ((List.range 3).any (fun i =>
    (bget9 b (i * 3) == bget9 b (i * 3 + 1) &&
     bget9 b (i * 3) == bget9 b (i * 3 + 2) && bget9 b (i * 3) == p) ||
    (bget9 b i == bget9 b (i + 3) &&
     bget9 b i == bget9 b (i + 6) && bget9 b i == p)))

/-- `collector.stop(reason)` for TicTacToe (idempotent, synchronously
emits `end` then the `gameOver` result). -/
def tttStop (c : TTTConfig) (outcome : String) : TTTConfig :=
  if c.stopped then c
  else { c with stopped := true,
                trace := c.trace ++ [Ev.endEv, Ev.gameOverEv outcome] }

/-- Segment after `deferUpdate` resolves (lines 221-234): `locked` guard,
turn check, cell check, move application, win/tie stop, turn flip.  All
early exits release the lock in `finally` within the same segment, so the
configuration's `locked` is unchanged on those paths; only the path that
suspends at the render keeps the lock held. -/
def tttSegMain (e : TTTEvent) (c : TTTConfig) : TTTConfig × TPc :=
  if c.locked then (c, TPc.tdone)
  else if e.byP1 ≠ c.isP1Turn then (c, TPc.tdone)
  else if bget9 c.board e.index ≠ 0 then (c, TPc.tdone)
  else
    let b' := c.board.set e.index (if c.isP1Turn then 1 else 2)
    let c' := { c with board := b', mutCount := c.mutCount + 1 }
    if hasWonGame b' 1 || hasWonGame b' 2 then (tttStop c' "win", TPc.tdone)
    else if b'.contains 0 = false then (tttStop c' "tie", TPc.tdone)
    else ({ c' with isP1Turn := !c.isP1Turn, locked := true }, TPc.rendering)

/-- Resumption after `await i.editReply` (lines 240-247): `error` on a
failed edit, then the `finally` releases the lock. -/
def tttSegRender (e : TTTEvent) (c : TTTConfig) : TTTConfig :=
  if e.editOk then { c with locked := false }
  else { c with locked := false, trace := c.trace ++ [Ev.errorEv] }

/-- Advance one TicTacToe handler invocation by one atomic segment. -/
def tttHandlerStep (e : TTTEvent) (c : TTTConfig) (pc : TPc) :
    TTTConfig × TPc :=
  match pc with
  | TPc.waiting => tttSegMain e c
  | TPc.rendering => (tttSegRender e c, TPc.tdone)
  | TPc.tdone => (c, TPc.tdone)

/-- Two dispatched TicTacToe handler invocations over the shared state. -/
structure TTTRace where
  cfg : TTTConfig
  pc1 : TPc
  pc2 : TPc
deriving DecidableEq

/-- One scheduler step of the TicTacToe race. -/
def tttStep (e1 e2 : TTTEvent) (r : TTTRace) (which : Bool) : TTTRace :=
  if which then
    let s := tttHandlerStep e1 r.cfg r.pc1
    { cfg := s.1, pc1 := s.2, pc2 := r.pc2 }
  else
    let s := tttHandlerStep e2 r.cfg r.pc2
    { cfg := s.1, pc1 := r.pc1, pc2 := s.2 }

/-- Run a schedule of the TicTacToe race. -/
def tttRun (e1 e2 : TTTEvent) (init : TTTRace) (sched : List Bool) : TTTRace :=
  sched.foldl (tttStep e1 e2) init

/-- Race start on the empty TicTacToe board, both handlers dispatched. -/
def tttEmptyInit : TTTRace :=
  { cfg := { board := [0, 0, 0, 0, 0, 0, 0, 0, 0], isP1Turn := true,
             locked := false, stopped := false, trace := [], mutCount := 0 },
    pc1 := TPc.waiting, pc2 := TPc.waiting }

/-- Player 1's click on cell 0 with a succeeding render. -/
def p1Click0 : TTTEvent := { byP1 := true, index := 0, editOk := true }

/-- Number of `gameOver` events in a trace. -/
def countGameOvers (tr : List Ev) : ℕ :=
  tr.countP (fun e => match e with | Ev.gameOverEv _ => true | _ => false)

/-- The lock discipline of the TicTacToe handler: the `locked` flag is set
exactly while one handler invocation is suspended at its board render
(between its lock acquisition and its `finally`), and at most one handler
can be in that span. -/
def TTTLockInv (r : TTTRace) : Prop :=
  (r.cfg.locked = true ↔ (r.pc1 = TPc.rendering ∨ r.pc2 = TPc.rendering)) ∧
  ¬(r.pc1 = TPc.rendering ∧ r.pc2 = TPc.rendering)

/-- Race invariant for two events on the same cell `i` of a TicTacToe
session that started with mutation counter `mc` and trace `tr`: at most
one mutation beyond `mc` ever happens (and none while cell `i` is still
empty), and at most one `gameOver` beyond those of `tr` is ever
published. -/
def TTTRaceInv (i : ℕ) (mc : ℕ) (tr : List Ev) (c : TTTConfig) : Prop :=
  c.board.length = 9 ∧
  c.mutCount ≤ mc + 1 ∧
  (bget9 c.board i = 0 → c.mutCount = mc) ∧
  countGameOvers c.trace ≤ countGameOvers tr + 1 ∧
  (c.stopped = false → countGameOvers c.trace ≤ countGameOvers tr)

/-- A 2048 race in which handler 1 is suspended at its board render:
`g2048CexInit` after handler 1 ran its first two segments. -/
def g2048AtRender : G2048Race := g2048Run leftClick leftClick g2048CexInit [true, true]

/-- Shift state with two adjacent equal tiles (exponent 1) at `(0,0)` and
`(1,0)`, at the start of a pass. -/
def shiftWitnessState : SState :=
  ⟨[1, 1, 0, 0, 0, 0, 0, 0, 0, 0, 0, 0, 0, 0, 0, 0], 0, []⟩

/-- The merge performed by `shift (1,0) left` on `shiftWitnessState`. -/
def shiftWitnessEvent : MergeEvent := ⟨(1, 0), (0, 0), 1⟩

theorem mem_intRange {a b i : ℤ} (h1 : a ≤ i) (h2 : i ≤ b) : i ∈ intRange a b := by
  have hk : (i - a).toNat < (b + 1 - a).toNat := by omega
  simp only [intRange, List.mem_map, List.mem_range]
  exact ⟨(i - a).toNat, hk, by omega⟩

/-- **C7** In Connect 4, a horizontal run of four same-owner cells through
the just-placed cell `(x, y)` makes `isWinAt` report a win (first
conjunct, for every board, owner, and window `[i, i+3]` of row `y` that
contains `x`); and on the concrete board whose token placed at `(3,5)`
only completes a horizontal run of exactly three player-1 cells
`(1,5),(2,5),(3,5)`, the win check at the newly placed cell reports no win
(second conjunct, checked at `(3,5)` and also at `(1,5)`). -/
theorem connect4_win_at_four_not_at_three
    (b : List ℕ) (n : ℕ) (x y i : ℤ)
    (hy0 : 0 ≤ y) (hy6 : y < 6) (hi0 : 0 ≤ i) (hi7 : i + 3 < 7)
    (hxl : i ≤ x) (hxr : x ≤ i + 3)
    (h0 : readC4 b (i + y * 7) = some n)
    (h1 : readC4 b (i + y * 7 + 1) = some n)
    (h2 : readC4 b (i + y * 7 + 2) = some n)
    (h3 : readC4 b (i + y * 7 + 3) = some n) :
    isWinAt b n x y = true ∧
      (isWinAt run3Board 1 3 5 = false ∧ isWinAt run3Board 1 1 5 = false) := by
  refine ⟨?_, by decide, by decide⟩
  have hmem : i ∈ intRange (max 0 (x - 3)) x :=
    mem_intRange (max_le hi0 (by omega)) hxl
  have hwin : (intRange (max 0 (x - 3)) x).any (fun i =>
      decide (i + 3 < 7) &&
        (readC4 b (i + y * 7) == some n &&
         readC4 b (i + y * 7 + 1) == some n &&
         readC4 b (i + y * 7 + 2) == some n &&
         readC4 b (i + y * 7 + 3) == some n)) = true := by
    refine List.any_eq_true.mpr ⟨i, hmem, ?_⟩
    simp [h0, h1, h2, h3, hi7]
  unfold isWinAt
  rw [hwin]
  simp

/-- Witness for C7: the general horizontal-run conjunct applied to the
concrete board `run4Board` (run of four at row 5, columns 1-4), placed
cell `(4,5)`, window starting at column 1. -/
theorem connect4_win_at_four_not_at_three_witness :
    isWinAt run4Board 1 4 5 = true :=
  (connect4_win_at_four_not_at_three run4Board 1 4 5 1 (by decide) (by decide)
    (by decide) (by decide) (by decide) (by decide)
    (by decide) (by decide) (by decide) (by decide)).1

theorem plantMines_cells {rng : List (ℕ × ℕ)} :
    ∀ {need : ℕ} {b b' : List Cell},
      (∀ q ∈ rng, q.1 < 5 ∧ q.2 < 5) → b.length = 25 →
      (∀ c ∈ b, c = Cell.hidden ∨ c = Cell.mine) →
      plantMines need rng b = some b' →
      mineCount b' = mineCount b + need ∧ b'.length = 25 ∧
        ∀ c ∈ b', c = Cell.hidden ∨ c = Cell.mine := by
  induction rng with
  | nil =>
    intro need b b' _ hlen hcells h
    cases need with
    | zero =>
      simp only [plantMines, Option.some.injEq] at h
      subst h
      exact ⟨by omega, hlen, hcells⟩
    | succ n => simp [plantMines] at h
  | cons q rest ih =>
    intro need b b' hrng hlen hcells h
    cases need with
    | zero =>
      simp only [plantMines, Option.some.injEq] at h
      subst h
      exact ⟨by omega, hlen, hcells⟩
    | succ n =>
      obtain ⟨x, y⟩ := q
      have hq : x < 5 ∧ y < 5 := hrng (x, y) (List.mem_cons_self _ _)
      have hrest : ∀ p ∈ rest, p.1 < 5 ∧ p.2 < 5 :=
        fun p hp => hrng p (List.mem_cons_of_mem _ hp)
      simp only [plantMines] at h
      by_cases hmine : b.getD (y * 5 + x) Cell.hidden = Cell.mine
      · rw [if_pos hmine] at h
        exact ih hrest hlen hcells h
      · rw [if_neg hmine] at h
        have hidx : y * 5 + x < b.length := by omega
        have hset : ∀ c ∈ b.set (y * 5 + x) Cell.mine,
            c = Cell.hidden ∨ c = Cell.mine := by
          intro c hc
          rcases List.mem_or_eq_of_mem_set hc with hc' | hc'
          · exact hcells c hc'
          · exact Or.inr hc'
        have hbi : b[y * 5 + x] ≠ Cell.mine := by
          rw [List.getD_eq_getElem b Cell.hidden hidx] at hmine
          exact hmine
        have hcount : mineCount (b.set (y * 5 + x) Cell.mine) = mineCount b + 1 := by
          unfold mineCount
          rw [List.countP_set _ _ _ _ hidx]
          simp [hbi]
        obtain ⟨h1, h2, h3⟩ :=
          ih hrest (by simpa using hlen) hset h
        exact ⟨by omega, h2, h3⟩

theorem mem_mineBlocks {b : List Cell} {p : ℕ × ℕ} :
    p ∈ mineBlocks b ↔
      p.1 < 5 ∧ p.2 < 5 ∧ b.getD (p.2 * 5 + p.1) Cell.hidden = Cell.mine := by
  obtain ⟨x, y⟩ := p
  simp only [mineBlocks, List.mem_flatMap, List.mem_range, List.mem_filterMap]
  constructor
  · rintro ⟨y', hy', x', hx', hsome⟩
    split at hsome
    · rename_i hm
      simp only [Option.some.injEq, Prod.mk.injEq] at hsome
      obtain ⟨rfl, rfl⟩ := hsome
      exact ⟨hx', hy', hm⟩
    · exact absurd hsome (by simp)
  · rintro ⟨h1, h2, h3⟩
    exact ⟨y, h2, x, h1, by rw [if_pos h3]⟩

theorem firstBlockChoices_subset {b : List Cell} {p : ℕ × ℕ}
    (hp : p ∈ firstBlockChoices b) : p ∈ mineBlocks b := by
  unfold firstBlockChoices at hp
  split at hp
  · exact hp
  · exact (List.mem_filter.mp hp).1

theorem showFirstBlock_counts {b : List Cell} {k : ℕ}
    (hlen : b.length = 25)
    (hcells : ∀ c ∈ b, c = Cell.hidden ∨ c = Cell.mine)
    (hk : k < (firstBlockChoices b).length) :
    mineCount (showFirstBlock b k) + 1 = mineCount b ∧
      revealedCount (showFirstBlock b k) = revealedCount b + 1 := by
  have hget : (firstBlockChoices b)[k]? = some ((firstBlockChoices b)[k]) :=
    List.getElem?_eq_getElem hk
  set p := (firstBlockChoices b)[k] with hpdef
  have hpmem : p ∈ firstBlockChoices b := List.getElem_mem hk
  have hpmine := mem_mineBlocks.mp (firstBlockChoices_subset hpmem)
  obtain ⟨hpx, hpy, hpcell⟩ := hpmine
  have hidx : p.2 * 5 + p.1 < b.length := by omega
  have hcell : b[p.2 * 5 + p.1] = Cell.mine := by
    rw [← List.getD_eq_getElem b Cell.hidden hidx]
    exact hpcell
  have hpos : 0 < mineCount b := by
    refine List.countP_pos_iff.mpr ⟨b[p.2 * 5 + p.1], List.getElem_mem hidx, ?_⟩
    simp [hcell]
  unfold showFirstBlock
  rw [hget]
  constructor
  · unfold mineCount
    rw [List.countP_set _ _ _ _ hidx]
    have e1 : (decide (b[p.2 * 5 + p.1] = Cell.mine)) = true := by simp [hcell]
    have e2 : (decide (Cell.revealed (getMinesAround b p.1 p.2) = Cell.mine)) = false := by
      simp
    simp only [e1, e2, if_true, if_false, Bool.false_eq_true]
    unfold mineCount at hpos
    omega
  · unfold revealedCount
    rw [List.countP_set _ _ _ _ hidx]
    simp [hcell]

/-- **C9** For a Minesweeper game with validated option `mines = m`
(`1 ≤ m ≤ 24`): when the `start()` board setup terminates, `plantMines`
has marked exactly `m + 1` cells of the `5*5` board as mines (its loop
runs from `0` to `m` inclusive, retrying collisions), and
`showFirstBlock` then converts exactly one mine cell into a revealed
number cell, so the board entering the turn loop has exactly `m` mine
cells and exactly one revealed cell. -/
theorem minesweeper_board_setup
    (m : ℕ) (rng : List (ℕ × ℕ)) (k : ℕ) (b : List Cell)
    (hm1 : 1 ≤ m) (hm24 : m ≤ 24)
    (hrng : ∀ q ∈ rng, q.1 < 5 ∧ q.2 < 5)
    (hplant : plantMines (m + 1) rng msEmptyBoard = some b)
    (hk : k < (firstBlockChoices b).length) :
    mineCount b = m + 1 ∧ revealedCount b = 0 ∧
      mineCount (showFirstBlock b k) = m ∧
      revealedCount (showFirstBlock b k) = 1 := by
  have hempty : ∀ c ∈ msEmptyBoard, c = Cell.hidden ∨ c = Cell.mine := by
    intro c hc
    exact Or.inl (List.eq_of_mem_replicate hc)
  obtain ⟨hcount, hlen, hcells⟩ :=
    plantMines_cells hrng (by simp [msEmptyBoard]) hempty hplant
  have hzero : mineCount msEmptyBoard = 0 := by decide
  have hrev : revealedCount b = 0 := by
    refine List.countP_eq_zero.mpr ?_
    intro c hc
    rcases hcells c hc with rfl | rfl <;> simp
  obtain ⟨hshow1, hshow2⟩ := showFirstBlock_counts hlen hcells hk
  refine ⟨by omega, hrev, by omega, by omega⟩

/-- Witness for C9: `m = 1`, the random stream `[(0,0),(1,1)]`, first-block
draw `k = 0`. -/
theorem minesweeper_board_setup_witness :
    mineCount msWitnessBoard = 2 ∧ revealedCount msWitnessBoard = 0 ∧
      mineCount (showFirstBlock msWitnessBoard 0) = 1 ∧
      revealedCount (showFirstBlock msWitnessBoard 0) = 1 :=
  minesweeper_board_setup 1 [(0, 0), (1, 1)] 0 msWitnessBoard (by decide) (by decide)
    (by decide) (by decide) (by decide)

/-- **C10** In Rock Paper Scissors, when the collector ends by idle
timeout after exactly one of the two players recorded a (nonempty)
choice, the published result has outcome `"win"` with the winner being
the opponent of the initiating player... more precisely `winner` is the
opponent user regardless of which player chose (first conjunct, where
`some false` denotes the opponent); and outcome `"timeout"` arises only
when neither player recorded a choice (second conjunct). -/
theorem rps_single_choice_wins_opponent
    (pc oc : Option String) (r p s : String)
    (hpc : ∀ t, pc = some t → t ≠ "")
    (hoc : ∀ t, oc = some t → t ≠ "") :
    ((pc.isSome = true ∧ oc = none) ∨ (pc = none ∧ oc.isSome = true) →
      getResult pc oc = "win" ∧ rpsWinner pc oc r p s = some false) ∧
    (getResult pc oc = "timeout" → pc = none ∧ oc = none) := by
  constructor
  · rintro (⟨hps, rfl⟩ | ⟨rfl, hos⟩)
    · obtain ⟨t, rfl⟩ := Option.isSome_iff_exists.mp hps
      have ht : t ≠ "" := hpc t rfl
      have htr : truthy (some t) = true := by
        simp [truthy, ht]
      have hres : getResult (some t) none = "win" := by
        simp [getResult, htr]
      refine ⟨hres, ?_⟩
      simp [rpsWinner, hres, hasPlayer1Won]
    · obtain ⟨t, rfl⟩ := Option.isSome_iff_exists.mp hos
      have ht : t ≠ "" := hoc t rfl
      have htr : truthy (some t) = true := by
        simp [truthy, ht]
      have hres : getResult none (some t) = "win" := by
        simp [getResult, htr]
      refine ⟨hres, ?_⟩
      simp [rpsWinner, hres, hasPlayer1Won]
  · intro h
    unfold getResult at h
    split at h
    · rename_i hcond
      simp only [Bool.and_eq_true, Bool.not_eq_true'] at hcond
      obtain ⟨h1, h2⟩ := hcond
      constructor
      · cases pc with
        | none => rfl
        | some t =>
          exfalso
          have := hpc t rfl
          simp [truthy, this] at h1
      · cases oc with
        | none => rfl
        | some t =>
          exfalso
          have := hoc t rfl
          simp [truthy, this] at h2
    · split at h
      · exact absurd h (by decide)
      · exact absurd h (by decide)

/-- Witness for C10: the initiating player chose `"rock"`, the opponent
never chose; the result is a win for the opponent. -/
theorem rps_single_choice_wins_opponent_witness :
    getResult (some "rock") none = "win" ∧
      rpsWinner (some "rock") none "rock" "paper" "scissors" = some false :=
  (rps_single_choice_wins_opponent (some "rock") none "rock" "paper" "scissors"
    (by intro t h; injection h with h; subst h; decide)
    (by intro t h; cases h)).1
    (Or.inl ⟨rfl, rfl⟩)

theorem endOnceOrdered_of_shape (pre post : List Ev) {tr : List Ev}
    (heq : tr = pre ++ Ev.endEv :: post)
    (hpre : ∀ e ∈ pre, e = Ev.errorEv ∨ e = Ev.fatalErrorEv ∨ ∃ b, e = Ev.versusRejectEv b)
    (hpost : ∀ e ∈ post, e = Ev.errorEv ∨ ∃ o, e = Ev.gameOverEv o) :
    endOnceOrdered tr := by
  refine ⟨pre, post, heq, ?_, ?_, ?_, ?_⟩
  · intro h
    rcases hpre _ h with h' | h' | ⟨b, h'⟩ <;> simp at h'
  · intro h
    rcases hpost _ h with h' | ⟨o, h'⟩ <;> simp at h'
  · intro b h
    rcases hpost _ h with h' | ⟨o, h'⟩ <;> simp at h'
  · intro o h
    rcases hpre _ h with h' | h' | ⟨b, h'⟩ <;> simp at h'

theorem mem_ite_error {e : Ev} {c : Bool}
    (h : e ∈ if c then ([] : List Ev) else [Ev.errorEv]) : e = Ev.errorEv := by
  split at h
  · cases h
  · simpa using h

/-- **C1 (amended)** Lifecycle-event discipline of the modeled sessions:
on every terminal path of a versus game (negotiation reject/timeout,
fatal transition render, collector end) and of a 2048-style single-player
game, `end` is published exactly once, after any `versusReject` and
*before* any `gameOver`; a Trivia session publishes `end` exactly once on
every terminal path except the upstream-data-fetch-failure path, on which
it publishes only `error` events and no `end` at all. -/
theorem end_event_discipline :
    (∀ negPre negReason negEditOk renderOk collPre collReason endEditOk,
      endOnceOrdered
        (versusSessionTrace negPre negReason negEditOk renderOk collPre
          collReason endEditOk).1) ∧
    (∀ sendOk collPre collReason correct deferOk endEditOk,
      endOnceOrdered
        (triviaSessionTrace true sendOk collPre collReason correct deferOk
          endEditOk).1 ∧
      ∀ e ∈ (triviaSessionTrace false sendOk collPre collReason correct deferOk
          endEditOk).1, e = Ev.errorEv) ∧
    (∀ collPre collReason endEditOk,
      endOnceOrdered (game2048SessionTrace collPre collReason endEditOk)) := by
  refine ⟨?_, ?_, ?_⟩
  · intro negPre negReason negEditOk renderOk collPre collReason endEditOk
    by_cases hneg : negReason = "accept"
    · by_cases hrender : renderOk = false
      · refine endOnceOrdered_of_shape (List.replicate negPre Ev.errorEv ++
          [Ev.fatalErrorEv]) [] ?_ ?_ ?_
        · simp [versusSessionTrace, requestVersusTrace, hneg, hrender]
        · intro e he
          rcases List.mem_append.mp he with h | h
          · exact Or.inl (List.eq_of_mem_replicate h)
          · simp at h
            subst h
            exact Or.inr (Or.inl rfl)
        · intro e he
          cases he
      · refine endOnceOrdered_of_shape (List.replicate negPre Ev.errorEv ++
          List.replicate collPre Ev.errorEv)
          (match gameOverOutcome collReason with
            | some o => Ev.gameOverEv o :: (if endEditOk then [] else [Ev.errorEv])
            | none => []) ?_ ?_ ?_
        · simp [versusSessionTrace, requestVersusTrace, hneg, hrender]
        · intro e he
          rcases List.mem_append.mp he with h | h <;>
            exact Or.inl (List.eq_of_mem_replicate h)
        · intro e he
          cases hgo : gameOverOutcome collReason with
          | none =>
            rw [hgo] at he
            cases he
          | some o =>
            rw [hgo] at he
            rcases List.mem_cons.mp he with h | h
            · exact Or.inr ⟨o, h⟩
            · exact Or.inl (mem_ite_error h)
    · refine endOnceOrdered_of_shape (List.replicate negPre Ev.errorEv ++
        [Ev.versusRejectEv (negReason == "time")])
        (if negEditOk then [] else [Ev.errorEv]) ?_ ?_ ?_
      · simp [versusSessionTrace, requestVersusTrace, hneg]
      · intro e he
        rcases List.mem_append.mp he with h | h
        · exact Or.inl (List.eq_of_mem_replicate h)
        · simp at h
          subst h
          exact Or.inr (Or.inr ⟨_, rfl⟩)
      · intro e he
        exact Or.inl (mem_ite_error he)
  · intro sendOk collPre collReason correct deferOk endEditOk
    constructor
    · by_cases huser : collReason = "user"
      · refine endOnceOrdered_of_shape (List.replicate collPre Ev.errorEv)
          ((if deferOk then [] else [Ev.errorEv]) ++
            Ev.gameOverEv (if correct then "win" else "lose") ::
              (if endEditOk then [] else [Ev.errorEv])) ?_ ?_ ?_
        · simp [triviaSessionTrace, huser]
        · intro e he
          exact Or.inl (List.eq_of_mem_replicate he)
        · intro e he
          rcases List.mem_append.mp he with h | h
          · exact Or.inl (mem_ite_error h)
          · rcases List.mem_cons.mp h with h' | h'
            · exact Or.inr ⟨_, h'⟩
            · exact Or.inl (mem_ite_error h')
      · by_cases hidle : collReason = "idle"
        · refine endOnceOrdered_of_shape (List.replicate collPre Ev.errorEv)
            (Ev.gameOverEv "timeout" ::
              (if endEditOk then [] else [Ev.errorEv])) ?_ ?_ ?_
          · simp [triviaSessionTrace, huser, hidle]
          · intro e he
            exact Or.inl (List.eq_of_mem_replicate he)
          · intro e he
            rcases List.mem_cons.mp he with h | h
            · exact Or.inr ⟨_, h⟩
            · exact Or.inl (mem_ite_error h)
        · refine endOnceOrdered_of_shape (List.replicate collPre Ev.errorEv)
            [] ?_ ?_ ?_
          · simp [triviaSessionTrace, huser, hidle]
          · intro e he
            exact Or.inl (List.eq_of_mem_replicate he)
          · intro e he
            cases he
    · intro e he
      have he' : e ∈ Ev.errorEv :: (if sendOk = true then [] else [Ev.errorEv]) := by
        simpa [triviaSessionTrace] using he
      rcases List.mem_cons.mp he' with h | h
      · exact h
      · exact mem_ite_error h
  · intro collPre collReason endEditOk
    by_cases hover : collReason = "$over"
    · refine endOnceOrdered_of_shape (List.replicate collPre Ev.errorEv)
        (Ev.gameOverEv "over" ::
          (if endEditOk then [] else [Ev.errorEv])) ?_ ?_ ?_
      · simp [game2048SessionTrace, hover]
      · intro e he
        exact Or.inl (List.eq_of_mem_replicate he)
      · intro e he
        rcases List.mem_cons.mp he with h | h
        · exact Or.inr ⟨_, h⟩
        · exact Or.inl (mem_ite_error h)
    · by_cases hidle : collReason = "idle"
      · refine endOnceOrdered_of_shape (List.replicate collPre Ev.errorEv)
          (Ev.gameOverEv "timeout" ::
            (if endEditOk then [] else [Ev.errorEv])) ?_ ?_ ?_
        · simp [game2048SessionTrace, hover, hidle]
        · intro e he
          exact Or.inl (List.eq_of_mem_replicate he)
        · intro e he
          rcases List.mem_cons.mp he with h | h
          · exact Or.inr ⟨_, h⟩
          · exact Or.inl (mem_ite_error h)
      · refine endOnceOrdered_of_shape (List.replicate collPre Ev.errorEv)
          [] ?_ ?_ ?_
        · simp [game2048SessionTrace, hover, hidle]
        · intro e he
          exact Or.inl (List.eq_of_mem_replicate he)
        · intro e he
          cases he

/-- Counterexample to **C1** as stated: (a) on Trivia's upstream
data-fetch failure path the session publishes no `end` at all (count 0,
not "exactly once"), and (b) on the Connect 4 win path `end` is published
*before* `gameOver`, not after it. -/
theorem end_event_claim_cex :
    ((triviaSessionTrace false true 0 "user" true true true).1.count Ev.endEv = 0 ∧
      (triviaSessionTrace false true 0 "user" true true true).2 = false) ∧
    (versusSessionTrace 0 "accept" true true 0 "$win" true).1 =
      [Ev.endEv, Ev.gameOverEv "win"] := by
  constructor
  · constructor <;> rfl
  · rfl

/-- **C2** Evaluation of the versus-negotiation terminal paths: timeout
publishes exactly one `versusReject` then one `end`, explicit reject the
same, and no `gameOver` ever — but the payload the code passes to
`versusReject` is the *boolean* `isTime` (`true` on timeout, `false` on
explicit reject), not the declared strings `"time"` / `"user"`. -/
theorem versusReject_payload_and_counts :
    requestVersusTrace 0 "time" true = ([Ev.versusRejectEv true, Ev.endEv], false) ∧
    requestVersusTrace 0 "reject" true = ([Ev.versusRejectEv false, Ev.endEv], false) ∧
    ∀ preErrors reason editOk, reason ≠ "accept" →
      (requestVersusTrace preErrors reason editOk).1.count
          (Ev.versusRejectEv (reason == "time")) = 1 ∧
      (requestVersusTrace preErrors reason editOk).1.count Ev.endEv = 1 ∧
      ∀ o, Ev.gameOverEv o ∉ (requestVersusTrace preErrors reason editOk).1 := by
  refine ⟨rfl, rfl, ?_⟩
  intro preErrors reason editOk hne
  simp only [requestVersusTrace, if_neg hne]
  refine ⟨?_, ?_, ?_⟩
  · rw [List.count_append, List.count_replicate]
    simp only [List.count_cons]
    rcases editOk with _ | _ <;> simp
  · rw [List.count_append, List.count_replicate]
    simp only [List.count_cons]
    rcases editOk with _ | _ <;> simp
  · intro o h
    rcases List.mem_append.mp h with h' | h'
    · have := List.eq_of_mem_replicate h'
      cases this
    · rcases List.mem_cons.mp h' with h'' | h''
      · cases h''
      · rcases List.mem_cons.mp h'' with h3 | h3
        · cases h3
        · have := mem_ite_error h3
          cases this

/-- Witness for C2's general conjunct, at the timeout path with three
collect-phase errors and a failing outcome edit. -/
theorem versusReject_payload_and_counts_witness :
    (requestVersusTrace 3 "time" false).1.count (Ev.versusRejectEv true) = 1 ∧
      (requestVersusTrace 3 "time" false).1.count Ev.endEv = 1 ∧
      ∀ o, Ev.gameOverEv o ∉ (requestVersusTrace 3 "time" false).1 := by
  have h := versusReject_payload_and_counts.2.2 3 "time" false (by decide)
  simpa using h

/-- **C5** For every versus session whose invitation was accepted and
whose transition render to the first in-progress view fails, the session
publishes exactly `fatalError` immediately followed by `end` (after any
collect-phase errors of the negotiation), never opens the turn-loop input
collector (second component `false`), and never publishes `gameOver`. -/
theorem versus_fatal_render_path
    (negPre : ℕ) (negEditOk : Bool) (collPre : ℕ) (collReason : String)
    (endEditOk : Bool) :
    versusSessionTrace negPre "accept" negEditOk false collPre collReason
        endEditOk =
      (List.replicate negPre Ev.errorEv ++ [Ev.fatalErrorEv, Ev.endEv], false) ∧
    ∀ o, Ev.gameOverEv o ∉
      (versusSessionTrace negPre "accept" negEditOk false collPre collReason
        endEditOk).1 := by
  have htr : versusSessionTrace negPre "accept" negEditOk false collPre
      collReason endEditOk =
      (List.replicate negPre Ev.errorEv ++ [Ev.fatalErrorEv, Ev.endEv], false) := by
    simp [versusSessionTrace, requestVersusTrace]
  refine ⟨htr, ?_⟩
  intro o h
  rw [htr] at h
  rcases List.mem_append.mp h with h' | h'
  · have := List.eq_of_mem_replicate h'
    cases this
  · rcases List.mem_cons.mp h' with h'' | h''
    · cases h''
    · rcases List.mem_cons.mp h'' with h3 | h3
      · cases h3
      · cases h3

theorem tttStop_locked (c : TTTConfig) (o : String) :
    (tttStop c o).locked = c.locked := by
  unfold tttStop
  split <;> rfl

theorem tttSegMain_of_locked (e : TTTEvent) (c : TTTConfig)
    (h : c.locked = true) : tttSegMain e c = (c, TPc.tdone) := by
  unfold tttSegMain
  rw [if_pos h]

theorem tttSegMain_cases (e : TTTEvent) (c : TTTConfig) :
    ((tttSegMain e c).2 = TPc.rendering ∧ (tttSegMain e c).1.locked = true) ∨
    ((tttSegMain e c).2 = TPc.tdone ∧ (tttSegMain e c).1.locked = c.locked) := by
  unfold tttSegMain
  dsimp only
  repeat' split
  all_goals
    first
      | exact Or.inr ⟨rfl, rfl⟩
      | exact Or.inr ⟨rfl, tttStop_locked _ _⟩
      | exact Or.inl ⟨rfl, rfl⟩

theorem tttSegRender_locked (e : TTTEvent) (c : TTTConfig) :
    (tttSegRender e c).locked = false := by
  unfold tttSegRender
  split <;> rfl

theorem tttStep_lockInv (e1 e2 : TTTEvent) (r : TTTRace) (w : Bool)
    (h : TTTLockInv r) : TTTLockInv (tttStep e1 e2 r w) := by
  obtain ⟨h1, h2⟩ := h
  cases w
  · show TTTLockInv
      (let s := tttHandlerStep e2 r.cfg r.pc2
       { cfg := s.1, pc1 := r.pc1, pc2 := s.2 })
    cases hpc : r.pc2 with
    | tdone =>
      simp only [tttHandlerStep]
      exact ⟨by simpa [hpc] using h1, by simpa [hpc] using h2⟩
    | rendering =>
      have hother : r.pc1 ≠ TPc.rendering := fun hh => h2 ⟨hh, hpc⟩
      simp only [tttHandlerStep]
      constructor
      · rw [tttSegRender_locked]
        simp [hother]
      · simp
    | waiting =>
      by_cases hl : r.cfg.locked = true
      · simp only [tttHandlerStep, tttSegMain_of_locked e2 r.cfg hl]
        have hother : r.pc1 = TPc.rendering := by
          rcases h1.mp hl with hh | hh
          · exact hh
          · rw [hpc] at hh
            cases hh
        constructor
        · simp [hl, hother]
        · simp
      · have hlf : r.cfg.locked = false := by
          cases hcl : r.cfg.locked
          · rfl
          · exact absurd hcl hl
        have hnone : r.pc1 ≠ TPc.rendering ∧ r.pc2 ≠ TPc.rendering := by
          constructor <;> intro hh
          · exact hl (h1.mpr (Or.inl hh))
          · exact hl (h1.mpr (Or.inr hh))
        simp only [tttHandlerStep]
        rcases tttSegMain_cases e2 r.cfg with ⟨hp, hlk⟩ | ⟨hp, hlk⟩
        · constructor
          · simp [hp, hlk]
          · simp [hp]
            intro hh
            exact absurd hh hnone.1
        · constructor
          · rw [hlk, hlf, hp]
            simp [hnone.1]
          · simp [hp]
  · show TTTLockInv
      (let s := tttHandlerStep e1 r.cfg r.pc1
       { cfg := s.1, pc1 := s.2, pc2 := r.pc2 })
    cases hpc : r.pc1 with
    | tdone =>
      simp only [tttHandlerStep]
      exact ⟨by simpa [hpc] using h1, by simpa [hpc] using h2⟩
    | rendering =>
      have hother : r.pc2 ≠ TPc.rendering := fun hh => h2 ⟨hpc, hh⟩
      simp only [tttHandlerStep]
      constructor
      · rw [tttSegRender_locked]
        simp [hother]
      · simp
    | waiting =>
      by_cases hl : r.cfg.locked = true
      · simp only [tttHandlerStep, tttSegMain_of_locked e1 r.cfg hl]
        have hother : r.pc2 = TPc.rendering := by
          rcases h1.mp hl with hh | hh
          · rw [hpc] at hh
            cases hh
          · exact hh
        constructor
        · simp [hl, hother]
        · simp
      · have hlf : r.cfg.locked = false := by
          cases hcl : r.cfg.locked
          · rfl
          · exact absurd hcl hl
        have hnone : r.pc1 ≠ TPc.rendering ∧ r.pc2 ≠ TPc.rendering := by
          constructor <;> intro hh
          · exact hl (h1.mpr (Or.inl hh))
          · exact hl (h1.mpr (Or.inr hh))
        simp only [tttHandlerStep]
        rcases tttSegMain_cases e1 r.cfg with ⟨hp, hlk⟩ | ⟨hp, hlk⟩
        · constructor
          · simp [hp, hlk]
          · simp [hp]
            intro hh
            exact absurd hh hnone.2
        · constructor
          · rw [hlk, hlf, hp]
            simp [hnone.2]
          · simp [hp]

theorem tttRun_lockInv (e1 e2 : TTTEvent) (sched : List Bool) :
    ∀ r : TTTRace, TTTLockInv r → TTTLockInv (tttRun e1 e2 r sched) := by
  induction sched with
  | nil => exact fun r h => h
  | cons w rest ih =>
    intro r h
    exact ih (tttStep e1 e2 r w) (tttStep_lockInv e1 e2 r w h)

/-- **C4 (amended)** Lock discipline actually implemented by the
TicTacToe (and Connect 4) handler: the mutation lock is acquired after
the interaction acknowledgment and held until the handler's `finally`
clause, *including* across the board-render `await`; it is released on
every exit path, so at any scheduler point the lock is set exactly when
one handler invocation is suspended at its render await, and never when
no handler is mid-turn. -/
theorem lock_render_span (e1 e2 : TTTEvent) (b : List ℕ) (turn stp : Bool)
    (tr : List Ev) (mc : ℕ) (sched : List Bool) :
    ((tttRun e1 e2 ⟨⟨b, turn, false, stp, tr, mc⟩, TPc.waiting, TPc.waiting⟩
        sched).cfg.locked = true ↔
      ((tttRun e1 e2 ⟨⟨b, turn, false, stp, tr, mc⟩, TPc.waiting, TPc.waiting⟩
        sched).pc1 = TPc.rendering ∨
       (tttRun e1 e2 ⟨⟨b, turn, false, stp, tr, mc⟩, TPc.waiting, TPc.waiting⟩
        sched).pc2 = TPc.rendering)) ∧
    ¬((tttRun e1 e2 ⟨⟨b, turn, false, stp, tr, mc⟩, TPc.waiting, TPc.waiting⟩
        sched).pc1 = TPc.rendering ∧
      (tttRun e1 e2 ⟨⟨b, turn, false, stp, tr, mc⟩, TPc.waiting, TPc.waiting⟩
        sched).pc2 = TPc.rendering) := by
  have h := tttRun_lockInv e1 e2 sched
    ⟨⟨b, turn, false, stp, tr, mc⟩, TPc.waiting, TPc.waiting⟩
    ⟨by simp, by simp⟩
  exact h

/-- Counterexample to **C4** as stated: after player 1's valid move on
the empty board, the handler is suspended at the `editReply` await (a
suspension point waiting on external I/O) with the mutation lock still
set. -/
theorem lock_held_across_render_await :
    (tttRun p1Click0 p1Click0 tttEmptyInit [true]).pc1 = TPc.rendering ∧
    (tttRun p1Click0 p1Click0 tttEmptyInit [true]).cfg.locked = true := by
  exact ⟨rfl, rfl⟩

theorem countGameOvers_append (t1 t2 : List Ev) :
    countGameOvers (t1 ++ t2) = countGameOvers t1 + countGameOvers t2 := by
  unfold countGameOvers
  exact List.countP_append _ _ _

theorem bget9_set_self {b : List ℕ} {i : ℕ} (v : ℕ) (h : i < b.length) :
    bget9 (b.set i v) i = v := by
  unfold bget9
  rw [List.getD_eq_getElem _ 0 (by simpa using h)]
  exact List.getElem_set_self _

theorem tttHandlerStep_raceInv {i mc : ℕ} {tr : List Ev} (e : TTTEvent)
    (he : e.index = i) (hi : i < 9) (c : TTTConfig) (pc : TPc)
    (h : TTTRaceInv i mc tr c) :
    TTTRaceInv i mc tr (tttHandlerStep e c pc).1 := by
  obtain ⟨hlen, hmut1, hmut2, hg1, hg2⟩ := h
  cases pc with
  | tdone => exact ⟨hlen, hmut1, hmut2, hg1, hg2⟩
  | rendering =>
    show TTTRaceInv i mc tr (tttSegRender e c)
    unfold tttSegRender
    split
    · exact ⟨hlen, hmut1, hmut2, hg1, hg2⟩
    · have hc : countGameOvers [Ev.errorEv] = 0 := rfl
      refine ⟨hlen, hmut1, hmut2, ?_, ?_⟩
      · show countGameOvers (c.trace ++ [Ev.errorEv]) ≤ countGameOvers tr + 1
        rw [countGameOvers_append, hc]
        omega
      · intro hs
        have := hg2 hs
        show countGameOvers (c.trace ++ [Ev.errorEv]) ≤ countGameOvers tr
        rw [countGameOvers_append, hc]
        omega
  | waiting =>
    show TTTRaceInv i mc tr (tttSegMain e c).1
    unfold tttSegMain
    dsimp only
    split
    · exact ⟨hlen, hmut1, hmut2, hg1, hg2⟩
    split
    · exact ⟨hlen, hmut1, hmut2, hg1, hg2⟩
    split
    · exact ⟨hlen, hmut1, hmut2, hg1, hg2⟩
    · rename_i hcell
      have hcell0 : bget9 c.board i = 0 := by
        rw [← he]
        by_cases hz : bget9 c.board e.index = 0
        · exact hz
        · exact absurd hz (by simpa using hcell)
      have hmc : c.mutCount = mc := hmut2 hcell0
      have hset : ∀ v : ℕ, v ≠ 0 →
          TTTRaceInv i mc tr (tttStop
            { c with board := c.board.set e.index v,
                     mutCount := c.mutCount + 1 } "win") ∧
          TTTRaceInv i mc tr (tttStop
            { c with board := c.board.set e.index v,
                     mutCount := c.mutCount + 1 } "tie") ∧
          TTTRaceInv i mc tr
            { board := c.board.set e.index v, isP1Turn := !c.isP1Turn,
              locked := true, stopped := c.stopped, trace := c.trace,
              mutCount := c.mutCount + 1 } := by
        intro v hv
        have hlen' : (c.board.set e.index v).length = 9 := by
          simpa using hlen
        have hcellv : bget9 ((c.board.set e.index v)) i = v := by
          rw [← he] at hcell0 ⊢
          exact bget9_set_self v (by omega)
        have hstop : ∀ o, TTTRaceInv i mc tr (tttStop
            { c with board := c.board.set e.index v,
                     mutCount := c.mutCount + 1 } o) := by
          intro o
          unfold tttStop
          split
          · refine ⟨hlen', by dsimp only; omega, ?_, hg1, hg2⟩
            intro hz
            rw [hcellv] at hz
            exact absurd hz hv
          · rename_i hnstop
            have hsf : c.stopped = false := by
              simpa using hnstop
            refine ⟨hlen', by dsimp only; omega, ?_, ?_, ?_⟩
            · intro hz
              rw [hcellv] at hz
              exact absurd hz hv
            · show countGameOvers (c.trace ++ [Ev.endEv, Ev.gameOverEv o]) ≤
                countGameOvers tr + 1
              have hc : countGameOvers [Ev.endEv, Ev.gameOverEv o] = 1 := rfl
              rw [countGameOvers_append, hc]
              have := hg2 hsf
              omega
            · intro hs
              simp at hs
        refine ⟨hstop "win", hstop "tie", ?_⟩
        refine ⟨hlen', by dsimp only; omega, ?_, hg1, hg2⟩
        intro hz
        rw [hcellv] at hz
        exact absurd hz hv
      split
      · split
        · exact (hset 1 (by decide)).1
        split
        · exact (hset 1 (by decide)).2.1
        · exact (hset 1 (by decide)).2.2
      · split
        · exact (hset 2 (by decide)).1
        split
        · exact (hset 2 (by decide)).2.1
        · exact (hset 2 (by decide)).2.2

theorem tttRun_raceInv (i mc : ℕ) (tr : List Ev) (e1 e2 : TTTEvent)
    (he1 : e1.index = i) (he2 : e2.index = i) (hi : i < 9)
    (sched : List Bool) :
    ∀ r : TTTRace, TTTRaceInv i mc tr r.cfg →
      TTTRaceInv i mc tr (tttRun e1 e2 r sched).cfg := by
  induction sched with
  | nil => exact fun r h => h
  | cons w rest ih =>
    intro r h
    refine ih (tttStep e1 e2 r w) ?_
    unfold tttStep
    cases w
    · simpa using tttHandlerStep_raceInv e2 he2 hi r.cfg r.pc2 h
    · simpa using tttHandlerStep_raceInv e1 he1 hi r.cfg r.pc1 h

/-- **C3 (amended)** Turn arbitration as implemented: in the lock-guarded
games (TicTacToe, Connect 4), a second input event whose handler reaches
the lock check while the lock is held is dropped with no effect on the
session state (first two conjuncts: the step only marks that handler
finished); and for two racing events on the same cell, every interleaving
applies at most one board mutation and publishes at most one `gameOver`
(third conjunct).  The 2048 game's handler has no lock, and two racing
events each apply their mutation (see the counterexample theorem). -/
theorem arbitration_drop_and_single_mutation :
    (∀ (e1 e2 : TTTEvent) (r : TTTRace), r.cfg.locked = true →
      r.pc1 = TPc.waiting →
      tttStep e1 e2 r true = { r with pc1 := TPc.tdone }) ∧
    (∀ (e1 e2 : TTTEvent) (r : TTTRace), r.cfg.locked = true →
      r.pc2 = TPc.waiting →
      tttStep e1 e2 r false = { r with pc2 := TPc.tdone }) ∧
    (∀ (b : List ℕ) (turn stp : Bool) (tr : List Ev) (mc : ℕ)
       (u1 u2 : Bool) (i : ℕ) (ed1 ed2 : Bool) (sched : List Bool),
      b.length = 9 → i < 9 →
      (tttRun ⟨u1, i, ed1⟩ ⟨u2, i, ed2⟩
          ⟨⟨b, turn, false, stp, tr, mc⟩, TPc.waiting, TPc.waiting⟩
          sched).cfg.mutCount ≤ mc + 1 ∧
      countGameOvers (tttRun ⟨u1, i, ed1⟩ ⟨u2, i, ed2⟩
          ⟨⟨b, turn, false, stp, tr, mc⟩, TPc.waiting, TPc.waiting⟩
          sched).cfg.trace ≤ countGameOvers tr + 1) := by
  refine ⟨?_, ?_, ?_⟩
  · intro e1 e2 r hl hpc
    unfold tttStep
    simp only [if_pos]
    rw [hpc]
    show ({ cfg := (tttSegMain e1 r.cfg).1, pc1 := (tttSegMain e1 r.cfg).2,
            pc2 := r.pc2 } : TTTRace) = { r with pc1 := TPc.tdone }
    rw [tttSegMain_of_locked e1 r.cfg hl]
  · intro e1 e2 r hl hpc
    unfold tttStep
    simp only [Bool.false_eq_true, if_neg]
    rw [hpc]
    show ({ cfg := (tttSegMain e2 r.cfg).1, pc1 := r.pc1,
            pc2 := (tttSegMain e2 r.cfg).2 } : TTTRace) = { r with pc2 := TPc.tdone }
    rw [tttSegMain_of_locked e2 r.cfg hl]
  · intro b turn stp tr mc u1 u2 i ed1 ed2 sched hb hi
    have hinit : TTTRaceInv i mc tr
        (⟨⟨b, turn, false, stp, tr, mc⟩, TPc.waiting, TPc.waiting⟩ : TTTRace).cfg := by
      refine ⟨hb, by dsimp only; omega, fun _ => rfl, by dsimp only; omega,
        fun _ => le_refl _⟩
    have h := tttRun_raceInv i mc tr
      ⟨u1, i, ed1⟩ ⟨u2, i, ed2⟩ rfl rfl hi sched
      ⟨⟨b, turn, false, stp, tr, mc⟩, TPc.waiting, TPc.waiting⟩ hinit
    exact ⟨h.2.1, h.2.2.2.1⟩

/-- Witness for C3's amended theorem: a held lock drops the second
handler without touching the state, and a concrete same-cell double-click
race applies one mutation and one `gameOver`. -/
theorem arbitration_drop_and_single_mutation_witness :
    (tttStep p1Click0 p1Click0
        { cfg := { board := [0, 0, 0, 0, 0, 0, 0, 0, 0], isP1Turn := true,
                   locked := true, stopped := false, trace := [], mutCount := 0 },
          pc1 := TPc.waiting, pc2 := TPc.rendering } true =
      { cfg := { board := [0, 0, 0, 0, 0, 0, 0, 0, 0], isP1Turn := true,
                 locked := true, stopped := false, trace := [], mutCount := 0 },
        pc1 := TPc.tdone, pc2 := TPc.rendering }) ∧
    ((tttRun p1Click0 p1Click0 tttEmptyInit [true, false, true, false]).cfg.mutCount ≤ 1 ∧
      countGameOvers (tttRun p1Click0 p1Click0 tttEmptyInit
        [true, false, true, false]).cfg.trace ≤ 1) := by
  constructor
  · exact arbitration_drop_and_single_mutation.1 p1Click0 p1Click0 _ rfl rfl
  · have h := arbitration_drop_and_single_mutation.2.2
      [0, 0, 0, 0, 0, 0, 0, 0, 0] true false [] 0 true true 0 true true
      [true, false, true, false] (by decide) (by decide)
    have hc : countGameOvers ([] : List Ev) = 0 := rfl
    constructor
    · exact h.1
    · have := h.2
      rw [hc] at this
      simpa using this

/-- Counterexample to **C3** as stated: 2048 is a multi-step game with no
turn-arbitration lock.  Starting from a board with one tile at `(3,0)`,
two `left` click events both dispatched before either handler completes
each apply a board mutation — two mutations, not exactly one. -/
theorem no_lock_double_mutation_cex :
    (g2048Run leftClick leftClick g2048CexInit
        [true, false, true, true, false, false]).cfg.mutCount = 2 ∧
    ¬((g2048Run leftClick leftClick g2048CexInit
        [true, false, true, true, false, false]).cfg.mutCount = 1) := by
  constructor
  · rfl
  · intro h
    have h2 : (g2048Run leftClick leftClick g2048CexInit
        [true, false, true, true, false, false]).cfg.mutCount = 2 := rfl
    rw [h] at h2
    cases h2

/-- **C6** A failed `editReply` after the turn loop has begun (handler
suspended at its board render) is caught and published as a non-fatal
`error`: the board, score, mutation count and collector-stop state are
exactly those of the successful-edit run, only an `error` event is added,
and the handler completes so the collector keeps running. -/
theorem transport_error_nonfatal (e1 e2 : H2048Event) (r : G2048Race)
    (hpc : r.pc1 = HPc.atRender) :
    ((g2048Step { dir := e1.dir, editOk := false } e2 r true).cfg.board =
        r.cfg.board ∧
      (g2048Step { dir := e1.dir, editOk := false } e2 r true).cfg.score =
        r.cfg.score ∧
      (g2048Step { dir := e1.dir, editOk := false } e2 r true).cfg.stopped =
        r.cfg.stopped ∧
      (g2048Step { dir := e1.dir, editOk := false } e2 r true).cfg.mutCount =
        r.cfg.mutCount ∧
      (g2048Step { dir := e1.dir, editOk := false } e2 r true).cfg.trace =
        r.cfg.trace ++ [Ev.errorEv] ∧
      (g2048Step { dir := e1.dir, editOk := false } e2 r true).pc1 =
        HPc.hdone ∧
      (g2048Step { dir := e1.dir, editOk := false } e2 r true).pc2 = r.pc2) ∧
    ((g2048Step { dir := e1.dir, editOk := true } e2 r true).cfg = r.cfg ∧
      (g2048Step { dir := e1.dir, editOk := true } e2 r true).pc1 =
        HPc.hdone) := by
  constructor
  · simp [g2048Step, g2048HandlerStep, hpc, g2048SegRender]
  · simp [g2048Step, g2048HandlerStep, hpc, g2048SegRender]

/-- Witness for C6 at a concrete suspended-at-render race. -/
theorem transport_error_nonfatal_witness :
    (g2048Step { dir := Dir.left, editOk := false } leftClick g2048AtRender
        true).cfg.trace = g2048AtRender.cfg.trace ++ [Ev.errorEv] ∧
    (g2048Step { dir := Dir.left, editOk := false } leftClick g2048AtRender
        true).cfg.board = g2048AtRender.cfg.board ∧
    (g2048Step { dir := Dir.left, editOk := false } leftClick g2048AtRender
        true).cfg.stopped = g2048AtRender.cfg.stopped := by
  have h := transport_error_nonfatal leftClick leftClick g2048AtRender rfl
  exact ⟨h.1.2.2.2.2.1, h.1.1, h.1.2.2.1⟩

theorem idx16_move (p : ℤ × ℤ) (d : Dir) :
    idx16 (moveInDirection p d) = idx16 p + dirDelta d := by
  cases d <;> simp [idx16, moveInDirection, dirDelta] <;> ring

theorem dirDelta_ne_zero (d : Dir) : dirDelta d ≠ 0 := by
  cases d <;> decide

theorem read16_bounds {b : List ℕ} {i : ℤ} {v : ℕ} (h : read16 b i = some v) :
    0 ≤ i ∧ i < 16 := by
  unfold read16 at h
  split at h
  · assumption
  · cases h

theorem write16_length (b : List ℕ) (i : ℤ) (v : ℕ) :
    (write16 b i v).length = b.length := by
  unfold write16
  split <;> simp

theorem read16_write16_self {b : List ℕ} {i : ℤ} (v : ℕ)
    (hb : b.length = 16) (hi : 0 ≤ i ∧ i < 16) :
    read16 (write16 b i v) i = some v := by
  unfold read16 write16
  rw [if_pos hi, if_pos hi]
  have hlt : i.toNat < b.length := by omega
  congr 1
  rw [List.getD_eq_getElem _ 0 (by simpa using hlt)]
  exact List.getElem_set_self _

theorem read16_write16_ne {b : List ℕ} {i j : ℤ} (v : ℕ) (hij : i ≠ j) :
    read16 (write16 b i v) j = read16 b j := by
  unfold read16 write16
  by_cases hi : 0 ≤ i ∧ i < 16
  · rw [if_pos hi]
    by_cases hj : 0 ≤ j ∧ j < 16
    · rw [if_pos hj, if_pos hj]
      have hnat : i.toNat ≠ j.toNat := by omega
      simp [List.getD_eq_getElem?_getD, List.getElem?_set_ne hnat]
    · rw [if_neg hj, if_neg hj]
  · rw [if_neg hi]

theorem shiftLoop_spec (dir : Dir) (m : ℕ) :
    ∀ (fuel : ℕ) (pos moveTo : ℤ × ℤ) (k : ℕ) (st : SState),
      idx16 moveTo = idx16 pos + k * dirDelta dir →
      (((shiftLoop fuel pos m dir moveTo st).2.2 = [] ∧
        (shiftLoop fuel pos m dir moveTo st).1.score = st.score ∧
        (shiftLoop fuel pos m dir moveTo st).1.merged = st.merged) ∨
       (∃ d : ℤ × ℤ,
         (shiftLoop fuel pos m dir moveTo st).2.2 = [⟨pos, d, m⟩] ∧
         read16 st.board (idx16 d) = some m ∧
         idx16 d ≠ idx16 pos ∧
         st.merged.contains d = false ∧
         (shiftLoop fuel pos m dir moveTo st).1.board =
           write16 (write16 st.board (idx16 d) (m + 1)) (idx16 pos) 0 ∧
         (shiftLoop fuel pos m dir moveTo st).1.score =
           st.score + (m + 1) ^ 2 ∧
         (shiftLoop fuel pos m dir moveTo st).1.merged =
           st.merged ++ [d])) := by
  intro fuel
  induction fuel with
  | zero =>
    intro pos moveTo k st hk
    exact Or.inl ⟨rfl, rfl, rfl⟩
  | succ fuel ih =>
    intro pos moveTo k st hk
    rw [shiftLoop]
    dsimp only
    split
    · split
      · exact Or.inl ⟨rfl, rfl, rfl⟩
      · exact Or.inl ⟨rfl, rfl, rfl⟩
    · rename_i hguard
      split
      · rename_i hmerge
        refine Or.inr ⟨moveInDirection moveTo dir, rfl, eq_of_beq hmerge, ?_, ?_,
          rfl, rfl, rfl⟩
        · rw [idx16_move, hk]
          have h1 : ((k : ℤ) + 1) ≠ 0 := by omega
          have h2 : ((k : ℤ) + 1) * dirDelta dir ≠ 0 :=
            mul_ne_zero h1 (dirDelta_ne_zero dir)
          intro heq
          apply h2
          have h3 : ((k : ℤ) + 1) * dirDelta dir =
              (k : ℤ) * dirDelta dir + dirDelta dir := by ring
          rw [h3]
          linarith
        · simp only [Bool.or_eq_true, not_or] at hguard
          rcases Bool.eq_false_or_eq_true
            (st.merged.contains (moveInDirection moveTo dir)) with ht | hf
          · exact absurd ht hguard.2
          · exact hf
      · apply ih pos (moveInDirection moveTo dir) (k + 1) st
        rw [idx16_move, hk]
        push_cast
        ring

theorem shift_spec (p : ℤ × ℤ) (dir : Dir) (st : SState) :
    ((shift p dir st).2.2 = [] ∧ (shift p dir st).1.score = st.score ∧
      (shift p dir st).1.merged = st.merged) ∨
    (∃ e : MergeEvent,
      (shift p dir st).2.2 = [e] ∧ e.src = p ∧
      read16 st.board (idx16 p) = some e.oldVal ∧
      read16 st.board (idx16 e.dst) = some e.oldVal ∧
      idx16 e.dst ≠ idx16 p ∧
      st.merged.contains e.dst = false ∧
      (shift p dir st).1.board =
        write16 (write16 st.board (idx16 e.dst) (e.oldVal + 1)) (idx16 p) 0 ∧
      (shift p dir st).1.score = st.score + (e.oldVal + 1) ^ 2 ∧
      (shift p dir st).1.merged = st.merged ++ [e.dst]) := by
  unfold shift
  split
  · exact Or.inl ⟨rfl, rfl, rfl⟩
  · exact Or.inl ⟨rfl, rfl, rfl⟩
  · rename_i t heq
    rcases shiftLoop_spec dir (t + 1) 8 p p 0 st (by simp) with
      h | ⟨d, h1, h2, h3, h4, h5, h6, h7⟩
    · exact Or.inl h
    · exact Or.inr ⟨⟨p, d, t + 1⟩, h1, rfl, heq, h2, h3, h4, h5, h6, h7⟩

theorem passFold_events_append (dir : Dir) :
    ∀ (order : List (ℤ × ℤ)) (st : SState) (moved : Bool)
      (evs : List MergeEvent),
      passFold dir order st moved evs =
        ((passFold dir order st moved []).1,
          (passFold dir order st moved []).2.1,
          evs ++ (passFold dir order st moved []).2.2) := by
  intro order
  induction order with
  | nil => intro st moved evs; simp [passFold]
  | cons p rest ih =>
    intro st moved evs
    have hstep : ∀ es, passFold dir (p :: rest) st moved es =
        passFold dir rest (shift p dir st).1 ((shift p dir st).2.1 || moved)
          (es ++ (shift p dir st).2.2) := fun es => rfl
    rw [hstep evs, hstep [], ih _ _ (evs ++ (shift p dir st).2.2),
      ih _ _ ([] ++ (shift p dir st).2.2)]
    simp

theorem contains_append_false {l1 : List (ℤ × ℤ)} {x y : ℤ × ℤ}
    (h : (l1 ++ [y]).contains x = false) :
    l1.contains x = false ∧ x ≠ y := by
  constructor
  · rcases Bool.eq_false_or_eq_true (l1.contains x) with ht | hf
    swap
    · exact hf
    · exfalso
      have hx : x ∈ l1 := by simpa using ht
      have : (l1 ++ [y]).contains x = true := by simp [hx]
      rw [h] at this
      cases this
  · intro hxy
    subst hxy
    have : (l1 ++ [x]).contains x = true := by simp
    rw [h] at this
    cases this

theorem passFold_score_merged_nodup (dir : Dir) :
    ∀ (order : List (ℤ × ℤ)) (st : SState) (moved : Bool),
      ((passFold dir order st moved []).1.score =
        st.score + (((passFold dir order st moved []).2.2).map
          (fun e => (e.oldVal + 1) ^ 2)).sum) ∧
      ((passFold dir order st moved []).1.merged =
        st.merged ++
          ((passFold dir order st moved []).2.2).map (fun e => e.dst)) ∧
      (∀ e ∈ (passFold dir order st moved []).2.2,
        st.merged.contains e.dst = false) ∧
      (((passFold dir order st moved []).2.2).map (fun e => e.dst)).Nodup := by
  intro order
  induction order with
  | nil =>
    intro st moved
    refine ⟨by simp [passFold], by simp [passFold], ?_, by simp [passFold]⟩
    intro e he
    simp [passFold] at he
  | cons p rest ih =>
    intro st moved
    have hstep : ∀ es, passFold dir (p :: rest) st moved es =
        passFold dir rest (shift p dir st).1 ((shift p dir st).2.1 || moved)
          (es ++ (shift p dir st).2.2) := fun es => rfl
    rcases shift_spec p dir st with ⟨hev, hsc, hmg⟩ |
      ⟨e, hev, hsrc, holds, holdd, hne, hcont, hb, hsc, hmg⟩
    · have heq : passFold dir (p :: rest) st moved [] =
          passFold dir rest (shift p dir st).1
            ((shift p dir st).2.1 || moved) [] := by
        rw [hstep []]
        rw [hev]
        rfl
      rw [heq]
      obtain ⟨i1, i2, i3, i4⟩ := ih (shift p dir st).1 ((shift p dir st).2.1 || moved)
      refine ⟨by rw [i1, hsc], by rw [i2, hmg], ?_, i4⟩
      intro e' he'
      have := i3 e' he'
      rw [hmg] at this
      exact this
    · have heq : passFold dir (p :: rest) st moved [] =
          ((passFold dir rest (shift p dir st).1
              ((shift p dir st).2.1 || moved) []).1,
            (passFold dir rest (shift p dir st).1
              ((shift p dir st).2.1 || moved) []).2.1,
            [e] ++ (passFold dir rest (shift p dir st).1
              ((shift p dir st).2.1 || moved) []).2.2) := by
        rw [hstep []]
        rw [hev]
        exact passFold_events_append dir rest _ _ [e]
      rw [heq]
      obtain ⟨i1, i2, i3, i4⟩ := ih (shift p dir st).1 ((shift p dir st).2.1 || moved)
      have hrest : ∀ e' ∈ (passFold dir rest (shift p dir st).1
          ((shift p dir st).2.1 || moved) []).2.2,
          st.merged.contains e'.dst = false ∧ e'.dst ≠ e.dst := by
        intro e' he'
        have h' := i3 e' he'
        rw [hmg] at h'
        exact contains_append_false h'
      refine ⟨?_, ?_, ?_, ?_⟩
      · show (passFold dir rest (shift p dir st).1
            ((shift p dir st).2.1 || moved) []).1.score = _
        rw [i1, hsc]
        simp
        ring
      · show (passFold dir rest (shift p dir st).1
            ((shift p dir st).2.1 || moved) []).1.merged = _
        rw [i2, hmg]
        simp
      · intro e' he'
        rcases List.mem_cons.mp (by simpa using he') with h' | h'
        · subst h'
          exact hcont
        · exact (hrest e' h').1
      · show (e.dst :: (passFold dir rest (shift p dir st).1
            ((shift p dir st).2.1 || moved) []).2.2.map (fun e => e.dst)).Nodup
        refine List.nodup_cons.mpr ⟨?_, i4⟩
        intro hmem
        rcases List.mem_map.mp hmem with ⟨e', he', hde⟩
        exact (hrest e' he').2 hde

/-- **C8** The 2048 directional shift pass: the pass's score gain is
exactly the sum, over its merges, of the square of the resulting
(incremented) stored value (first conjunct); no cell is merged into twice
within the same directional pass (second conjunct — the merge target
cells are pairwise distinct, enforced by the `mergedPos` set); and every
single merge consumes two tiles of equal value `v`, leaves the target
holding `v + 1` and the origin empty, adds `(v + 1)^2` to the score, and
records the target in `mergedPos`, which it was not in before (third
conjunct). -/
theorem tile_merge_pass :
    (∀ (dir : Dir) (board : List ℕ) (score : ℕ),
      (directionalPass dir board score).1.score =
        score + (((directionalPass dir board score).2.2).map
          (fun e => (e.oldVal + 1) ^ 2)).sum) ∧
    (∀ (dir : Dir) (board : List ℕ) (score : ℕ),
      (((directionalPass dir board score).2.2).map (fun e => e.dst)).Nodup) ∧
    (∀ (p : ℤ × ℤ) (dir : Dir) (st : SState) (e : MergeEvent),
      st.board.length = 16 → (shift p dir st).2.2 = [e] →
      read16 st.board (idx16 e.src) = some e.oldVal ∧
      read16 st.board (idx16 e.dst) = some e.oldVal ∧
      read16 (shift p dir st).1.board (idx16 e.dst) = some (e.oldVal + 1) ∧
      read16 (shift p dir st).1.board (idx16 e.src) = some 0 ∧
      (shift p dir st).1.score = st.score + (e.oldVal + 1) ^ 2 ∧
      st.merged.contains e.dst = false ∧
      (shift p dir st).1.merged = st.merged ++ [e.dst]) := by
  refine ⟨?_, ?_, ?_⟩
  · intro dir board score
    exact (passFold_score_merged_nodup dir (passOrder dir)
      ⟨board, score, []⟩ false).1
  · intro dir board score
    exact (passFold_score_merged_nodup dir (passOrder dir)
      ⟨board, score, []⟩ false).2.2.2
  · intro p dir st e hlen hev
    rcases shift_spec p dir st with ⟨hev0, _, _⟩ |
      ⟨e', hev', hsrc, holds, holdd, hne, hcont, hb, hsc, hmg⟩
    · rw [hev] at hev0
      cases hev0
    · have he' : e' = e := by
        have h : ([e'] : List MergeEvent) = [e] := hev'.symm.trans hev
        simpa using h
      subst he'
      subst hsrc
      have hbs := read16_bounds holds
      have hbd := read16_bounds holdd
      refine ⟨holds, holdd, ?_, ?_, hsc, hcont, hmg⟩
      · rw [hb, read16_write16_ne 0 (Ne.symm hne)]
        exact read16_write16_self _ hlen hbd
      · rw [hb]
        refine read16_write16_self _ ?_ hbs
        rw [write16_length]
        exact hlen

/-- Witness for C8's per-merge conjunct: merging the two exponent-1 tiles
at `(0,0)` and `(1,0)` leftwards produces a 2-exponent tile and 4 points. -/
theorem tile_merge_pass_witness :
    read16 shiftWitnessState.board (idx16 shiftWitnessEvent.dst) = some 1 ∧
    read16 (shift (1, 0) Dir.left shiftWitnessState).1.board
      (idx16 shiftWitnessEvent.dst) = some 2 ∧
    read16 (shift (1, 0) Dir.left shiftWitnessState).1.board
      (idx16 shiftWitnessEvent.src) = some 0 ∧
    (shift (1, 0) Dir.left shiftWitnessState).1.score = 4 := by
  have h := tile_merge_pass.2.2 (1, 0) Dir.left shiftWitnessState
    shiftWitnessEvent (by decide) (by decide)
  refine ⟨h.2.1, h.2.2.1, h.2.2.2.1, ?_⟩
  have := h.2.2.2.2.1
  simpa using this

/-- Witness for the C1 amended theorem at concrete terminal paths: an
explicit versus reject, an answered Trivia run, a failed Trivia fetch,
and an idle 2048 session. -/
theorem end_event_discipline_witness :
    endOnceOrdered (versusSessionTrace 1 "reject" true true 0 "$win" true).1 ∧
    endOnceOrdered (triviaSessionTrace true true 2 "user" true true true).1 ∧
    (∀ e ∈ (triviaSessionTrace false true 2 "user" true true true).1,
      e = Ev.errorEv) ∧
    endOnceOrdered (game2048SessionTrace 0 "idle" false) :=
  ⟨end_event_discipline.1 1 "reject" true true 0 "$win" true,
    (end_event_discipline.2.1 true 2 "user" true true true).1,
    (end_event_discipline.2.1 true 2 "user" true true true).2,
    end_event_discipline.2.2 0 "idle" false⟩

/-- Witness for C5 at concrete parameters. -/
theorem versus_fatal_render_path_witness :
    versusSessionTrace 2 "accept" true false 5 "idle" true =
      (List.replicate 2 Ev.errorEv ++ [Ev.fatalErrorEv, Ev.endEv], false) :=
  (versus_fatal_render_path 2 true 5 "idle" true).1

/-- Witness for the C4 amended theorem on a concrete two-step schedule. -/
theorem lock_render_span_witness :
    ((tttRun p1Click0 p1Click0 tttEmptyInit [true, false]).cfg.locked = true ↔
      ((tttRun p1Click0 p1Click0 tttEmptyInit [true, false]).pc1 =
        TPc.rendering ∨
       (tttRun p1Click0 p1Click0 tttEmptyInit [true, false]).pc2 =
        TPc.rendering)) ∧
    ¬((tttRun p1Click0 p1Click0 tttEmptyInit [true, false]).pc1 =
        TPc.rendering ∧
      (tttRun p1Click0 p1Click0 tttEmptyInit [true, false]).pc2 =
        TPc.rendering) :=
  lock_render_span p1Click0 p1Click0 [0, 0, 0, 0, 0, 0, 0, 0, 0] true false [] 0
    [true, false]

end Gamecord
